import Mathlib

/-!
Shallow embedding of the doubletap-rl capture–block–record–replay engine.

The embedding mirrors the Rust sources:
  * `src/input_listener.rs` — global state (blocking flag, recording buffer,
    held-key tracker, last-auto-click timestamp), the recording operations
    (`start_blocking_and_recording`, `record_key_event`, `get_recording`,
    `stop_blocking_keys`, `mark_auto_click_sent`, `should_ignore_event`)
    and the grab-callback event classifier (`InputListener::start`).
  * `src/main.rs` — one iteration of the dispatch loop on receipt of a
    trigger (`dispatchOnTrigger`).
  * `src/input_simulator.rs` — `key_to_code` and the replay thread body of
    `replay_recorded_keys`.
  * `src/config.rs` — `Config` and its `Default` impl.

Wall-clock time (`now_ms()` in the Rust code, milliseconds since program
start) is passed explicitly as a `Nat` argument; Rust's
`u64::saturating_sub` is `Nat` subtraction.
-/

/-- Logical key identifiers (the `rdev::Key` variants the program treats
specially, plus an opaque code for every other key). -/
inductive RKey where
  | KeyW
  | KeyA
  | KeyS
  | KeyD
  | ShiftLeft
  | OtherKey (code : Nat)
deriving DecidableEq, Repr

/-- Mouse button identifiers (`rdev::Button`). -/
inductive RButton where
  | RightB
  | LeftB
  | OtherButton (code : Nat)
deriving DecidableEq, Repr

/-- `RecordedKeyEvent` from `input_listener.rs`: key, press-vs-release flag,
and time offset in milliseconds from recording start. -/
structure RecordedKeyEvent where
  key : RKey
  is_press : Bool
  offset_ms : Nat
deriving DecidableEq, Repr

/-- `MIN_CLICK_INTERVAL_MS` from `input_listener.rs`: the self-echo guard
window in milliseconds. -/
def MIN_CLICK_INTERVAL_MS : Nat := 100

/-- The process-wide mutable state of `input_listener.rs`:
`LAST_AUTO_CLICK_MS`, `BLOCKING_KEYS`, `RECORDING_START_MS`,
`RECORDED_KEYS`, `HELD_KEYS`. -/
structure RecState where
  lastAutoClickMs : Nat
  blockingKeys : Bool
  recordingStartMs : Nat
  recordedKeys : List RecordedKeyEvent
  heldKeys : List RKey
deriving DecidableEq, Repr

/-- Process-start state: all statics zero / empty / false. -/
def initState : RecState :=
  { lastAutoClickMs := 0, blockingKeys := false, recordingStartMs := 0,
    recordedKeys := [], heldKeys := [] }

/-- `mark_auto_click_sent`: store the current time as the last auto-click
timestamp and unblock keys. -/
def mark_auto_click_sent (now : Nat) (st : RecState) : RecState :=
  { st with lastAutoClickMs := now, blockingKeys := false }

/-- `start_blocking_and_recording`: no-op if already blocking; otherwise
clear the buffer and held set, fix the recording start time, and enable
blocking. -/
def start_blocking_and_recording (now : Nat) (st : RecState) : RecState :=
  if st.blockingKeys then st
  else
    { st with recordedKeys := [], heldKeys := [],
              recordingStartMs := now, blockingKeys := true }

/-- `is_blocking_keys`. -/
def is_blocking_keys (st : RecState) : Bool :=
  st.blockingKeys

/-- `stop_blocking_keys`: unblock and discard the recording and held set. -/
def stop_blocking_keys (st : RecState) : RecState :=
  { st with blockingKeys := false, recordedKeys := [], heldKeys := [] }

/-- `record_key_event`: compute the offset from recording start, update the
held-key tracker (append on a fresh press, remove on release), and append
the event to the buffer. -/
def record_key_event (now : Nat) (key : RKey) (pressed : Bool)
    (st : RecState) : RecState :=
  let offset_ms := now - st.recordingStartMs
  let held :=
    if pressed then
      if st.heldKeys.contains key then st.heldKeys
      else st.heldKeys ++ [key]
    else
      st.heldKeys.filter (fun k => k != key)
  { st with heldKeys := held,
            recordedKeys :=
              st.recordedKeys ++ [⟨key, pressed, offset_ms⟩] }

/-- One step of `get_recording`'s held-key drain loop: a held `ShiftLeft`
removes every ShiftLeft press from the drained events, any other held key
appends a synthetic release at `end_offset`. -/
def harvestStep (end_offset : Nat) (evs : List RecordedKeyEvent)
    (k : RKey) : List RecordedKeyEvent :=
  if k = RKey.ShiftLeft then
    evs.filter (fun e => !(e.key == RKey.ShiftLeft && e.is_press))
  else
    evs ++ [⟨k, false, end_offset⟩]

/-- `get_recording`: compute `end_offset = now − recording_start`, take the
buffer, resolve every still-held key via `harvestStep`, and return the
events together with the drained state (buffer and held set emptied). -/
def get_recording (now : Nat) (st : RecState) :
    List RecordedKeyEvent × RecState :=
  let end_offset := now - st.recordingStartMs
  let events := st.heldKeys.foldl (harvestStep end_offset) st.recordedKeys
  (events, { st with recordedKeys := [], heldKeys := [] })

/-- `should_ignore_event`: never ignore when no auto-click has been marked
(`LAST_AUTO_CLICK_MS == 0`); otherwise ignore events less than
`MIN_CLICK_INTERVAL_MS` after the last marked auto-click. -/
def should_ignore_event (now : Nat) (st : RecState) : Bool :=
  if st.lastAutoClickMs = 0 then false
  else decide (now - st.lastAutoClickMs < MIN_CLICK_INTERVAL_MS)

/-- `is_wasd_key`. -/
def is_wasd_key (k : RKey) : Bool :=
  match k with
  | .KeyW | .KeyA | .KeyS | .KeyD => true
  | _ => false

/-- `is_blocked_key` (WASD plus ShiftLeft). -/
def is_blocked_key (k : RKey) : Bool :=
  match k with
  | .KeyW | .KeyA | .KeyS | .KeyD | .ShiftLeft => true
  | _ => false

/-- An input event delivered by `rdev::grab` (`EventType`). -/
inductive InputEvent where
  | buttonPress (b : RButton)
  | buttonRelease (b : RButton)
  | keyPress (k : RKey)
  | keyRelease (k : RKey)
  | otherEvent (code : Nat)
deriving DecidableEq, Repr

/-- Result of one grab-callback invocation: the new listener state, whether
the raw event was passed through to the host (`Some(event)` vs `None`), and
whether a `RightClickEvent` trigger was sent to the dispatch loop. -/
structure CallbackResult where
  state : RecState
  passThrough : Bool
  triggerSent : Bool
deriving DecidableEq, Repr

/-- The grab callback of `InputListener::start`, one event at a time.
`focused` is the `FocusState` snapshot read inside the callback. -/
def listenerCallback (focused : Bool) (now : Nat) (st : RecState)
    (e : InputEvent) : CallbackResult :=
  match e with
  | .buttonPress .RightB =>
      if !should_ignore_event now st && focused then
        ⟨start_blocking_and_recording now st, true, false⟩
      else ⟨st, true, false⟩
  | .buttonRelease .RightB =>
      if !should_ignore_event now st && focused then
        ⟨st, true, true⟩
      else ⟨st, true, false⟩
  | .keyPress k =>
      if k == RKey.ShiftLeft && is_blocking_keys st && focused then
        ⟨record_key_event now k true st, true, false⟩
      else if is_wasd_key k && is_blocking_keys st && focused then
        ⟨record_key_event now k true st, false, false⟩
      else ⟨st, true, false⟩
  | .keyRelease k =>
      if k == RKey.ShiftLeft && is_blocking_keys st && focused then
        ⟨record_key_event now k false st, true, false⟩
      else if is_wasd_key k && is_blocking_keys st && focused then
        ⟨record_key_event now k false st, false, false⟩
      else ⟨st, true, false⟩
  | _ => ⟨st, true, false⟩

/-- Result of one dispatch-loop iteration on a received trigger. -/
structure DispatchResult where
  state : RecState
  harvested : List RecordedKeyEvent
  replayStarted : Bool
deriving DecidableEq, Repr

/-- One iteration of the `main` event loop on receipt of a trigger:
re-check focus; if unfocused, discard via `stop_blocking_keys`; otherwise
inject the click (`injectOk` is its outcome); on failure discard; on
success harvest with `get_recording` BEFORE `mark_auto_click_sent`, then
start replay iff the harvested sequence is nonempty. -/
def dispatchOnTrigger (focused injectOk : Bool) (now : Nat)
    (st : RecState) : DispatchResult :=
  if focused then
    if injectOk then
      let r := get_recording now st
      let st2 := mark_auto_click_sent now r.2
      ⟨st2, r.1, !r.1.isEmpty⟩
    else ⟨stop_blocking_keys st, [], false⟩
  else ⟨stop_blocking_keys st, [], false⟩

/-- `key_to_code` from `input_simulator.rs`: rdev key to Linux evdev code;
unknown keys have no mapping. -/
def key_to_code (k : RKey) : Option Nat :=
  match k with
  | .KeyW => some 17
  | .KeyA => some 30
  | .KeyS => some 31
  | .KeyD => some 32
  | .ShiftLeft => some 42
  | _ => none

/-- One synthetic key emission of the replay thread: absolute time in ms
from replay start, evdev code, press-vs-release. -/
structure ReplayEmission where
  time : Nat
  code : Nat
  pressed : Bool
deriving DecidableEq, Repr

/-- Body of the replay thread's loop in `replay_recorded_keys`: carries
`last_offset` and the absolute clock; before each event sleeps
`offset_ms − last_offset` when positive, updates `last_offset`, then emits
the event iff its key has an evdev mapping. -/
def replayGo (last clock : Nat) :
    List RecordedKeyEvent → List ReplayEmission
  | [] => []
  | e :: rest =>
      let wait := if last < e.offset_ms then e.offset_ms - last else 0
      let clock2 := clock + wait
      match key_to_code e.key with
      | some c => ⟨clock2, c, e.is_press⟩ :: replayGo e.offset_ms clock2 rest
      | none => replayGo e.offset_ms clock2 rest

/-- `replay_recorded_keys`: empty input does nothing; otherwise the spawned
thread runs `replayGo` from `last_offset = 0`. -/
def replay_recorded_keys (events : List RecordedKeyEvent) :
    List ReplayEmission :=
  if events.isEmpty then [] else replayGo 0 0 events

/-- `Config` from `config.rs`. -/
structure Config where
  click_delay_ms : Nat
  target_window : String
  verbose : Bool

/-- `Config::default` from `config.rs`. -/
def Config.default : Config :=
  { click_delay_ms := 0, target_window := "Rocket League", verbose := false }

/-- Run a list of `(now, key, pressed)` recording calls in order. -/
def recordAll (ops : List (Nat × RKey × Bool)) (st : RecState) : RecState :=
  ops.foldl (fun s o => record_key_event o.1 o.2.1 o.2.2 s) st

/-- Number of press entries for `k` in an event list. -/
def pressCount (evs : List RecordedKeyEvent) (k : RKey) : Nat :=
  evs.countP (fun e => e.key == k && e.is_press)

/-- Number of release entries for `k` in an event list. -/
def releaseCount (evs : List RecordedKeyEvent) (k : RKey) : Nat :=
  evs.countP (fun e => e.key == k && !e.is_press)

/-! ## General lemmas about the replay scheduler -/

/-- On a suffix whose offsets are all at least `last` and sorted, the replay
loop emits each mapped event at absolute time equal to its own offset. -/
theorem replayGo_eq_filterMap (events : List RecordedKeyEvent) :
    ∀ last : Nat, (∀ e ∈ events, last ≤ e.offset_ms) →
    List.Sorted (· ≤ ·) (events.map (·.offset_ms)) →
    replayGo last last events =
      events.filterMap
        (fun e => (key_to_code e.key).map
          (fun c => ⟨e.offset_ms, c, e.is_press⟩)) := by
  induction events with
  | nil => intro last _ _; rfl
  | cons e rest ih =>
      intro last hle hs
      have hlast : last ≤ e.offset_ms := hle e (List.mem_cons_self e rest)
      have hclock :
          last + (if last < e.offset_ms then e.offset_ms - last else 0) =
            e.offset_ms := by
        by_cases h : last < e.offset_ms
        · simp [h]; omega
        · simp [h]; omega
      have hsrest : List.Sorted (· ≤ ·) (rest.map (·.offset_ms)) :=
        (List.pairwise_cons.mp hs).2
      have hherest : ∀ e' ∈ rest, e.offset_ms ≤ e'.offset_ms := by
        intro e' he'
        exact (List.pairwise_cons.mp hs).1 e'.offset_ms
          (List.mem_map_of_mem (·.offset_ms) he')
      have ihr := ih e.offset_ms hherest hsrest
      cases hcode : key_to_code e.key with
      | some c =>
          simp only [replayGo, hcode, hclock, List.filterMap_cons,
            Option.map_some']
          exact congrArg _ ihr
      | none =>
          simp only [replayGo, hcode, hclock, List.filterMap_cons,
            Option.map_none']
          exact ihr

/-- C8: Replay delta timing and order: for every finalized sequence with
nondecreasing `offset_ms` values, the replay emits exactly the mapped events
in recorded order, each at absolute time (cumulative delay) equal to its
own `offset_ms` (so the per-event wait is the difference of consecutive
offsets, zero when they are equal); events whose key has no injection
mapping are skipped without aborting the replay; an empty sequence causes
no emissions at all. -/
theorem replay_delta_timing (events : List RecordedKeyEvent)
    (hs : List.Sorted (· ≤ ·) (events.map (·.offset_ms))) :
    replay_recorded_keys events =
      events.filterMap
        (fun e => (key_to_code e.key).map
          (fun c => ⟨e.offset_ms, c, e.is_press⟩)) := by
  unfold replay_recorded_keys
  by_cases hemp : events.isEmpty
  · rw [List.isEmpty_iff] at hemp
    subst hemp; rfl
  · simp only [hemp, if_neg, Bool.false_eq_true, not_false_iff, ite_false]
    exact replayGo_eq_filterMap events 0 (fun _ _ => Nat.zero_le _) hs

theorem replay_delta_timing_witness :
    List.Sorted (· ≤ ·)
      (([⟨.KeyW, true, 0⟩, ⟨.KeyW, false, 50⟩, ⟨.KeyA, true, 50⟩,
         ⟨.OtherKey 7, true, 60⟩] : List RecordedKeyEvent).map
        (·.offset_ms)) ∧
    replay_recorded_keys
        [⟨.KeyW, true, 0⟩, ⟨.KeyW, false, 50⟩, ⟨.KeyA, true, 50⟩,
         ⟨.OtherKey 7, true, 60⟩] =
      ([⟨.KeyW, true, 0⟩, ⟨.KeyW, false, 50⟩, ⟨.KeyA, true, 50⟩,
        ⟨.OtherKey 7, true, 60⟩] : List RecordedKeyEvent).filterMap
        (fun e => (key_to_code e.key).map
          (fun c => ⟨e.offset_ms, c, e.is_press⟩)) :=
  ⟨by decide, replay_delta_timing _ (by decide)⟩

/-- C7: Focus gating: while the focus snapshot is false, every input event
is passed through to the host unmodified, no recording session starts, no
trigger is signalled, and no key event is recorded or suppressed (the
listener state is unchanged). -/
theorem focus_gating_passthrough (st : RecState) (now : Nat)
    (e : InputEvent) :
    listenerCallback false now st e = ⟨st, true, false⟩ := by
  cases e with
  | buttonPress b => cases b <;> simp [listenerCallback]
  | buttonRelease b => cases b <;> simp [listenerCallback]
  | keyPress k => simp [listenerCallback]
  | keyRelease k => simp [listenerCallback]
  | otherEvent c => rfl

/-- C5: Idempotent session start: a qualifying right-press (focused, not
inside the echo window) arriving while key-blocking is already enabled
leaves the listener state — buffer, held-key set and recording start time —
entirely unchanged. -/
theorem idempotent_session_start (st : RecState) (now : Nat)
    (hblock : st.blockingKeys = true)
    (hig : should_ignore_event now st = false) :
    listenerCallback true now st (.buttonPress .RightB) =
      ⟨st, true, false⟩ := by
  simp [listenerCallback, hig, start_blocking_and_recording, hblock]

theorem idempotent_session_start_witness :
    (RecState.mk 0 true 3 [⟨.KeyW, true, 2⟩] [.KeyW]).blockingKeys = true ∧
    should_ignore_event 5 (RecState.mk 0 true 3 [⟨.KeyW, true, 2⟩] [.KeyW]) =
      false ∧
    listenerCallback true 5 (RecState.mk 0 true 3 [⟨.KeyW, true, 2⟩] [.KeyW])
        (.buttonPress .RightB) =
      ⟨RecState.mk 0 true 3 [⟨.KeyW, true, 2⟩] [.KeyW], true, false⟩ :=
  ⟨rfl, rfl,
    idempotent_session_start (RecState.mk 0 true 3 [⟨.KeyW, true, 2⟩] [.KeyW])
      5 rfl rfl⟩

/-- C6: Discard on failure: when the dispatch loop receives a trigger and
the injection fails or the target window is unfocused, the session is
discarded: blocking is lifted, the buffer and held-key set are emptied, the
harvested sequence is empty and no replay is started. -/
theorem discard_on_failure (st : RecState) (focused injectOk : Bool)
    (now : Nat) (h : focused = false ∨ injectOk = false) :
    (dispatchOnTrigger focused injectOk now st).state.blockingKeys = false ∧
    (dispatchOnTrigger focused injectOk now st).state.recordedKeys = [] ∧
    (dispatchOnTrigger focused injectOk now st).state.heldKeys = [] ∧
    (dispatchOnTrigger focused injectOk now st).harvested = [] ∧
    (dispatchOnTrigger focused injectOk now st).replayStarted = false := by
  rcases h with h | h
  · subst h; simp [dispatchOnTrigger, stop_blocking_keys]
  · subst h; cases focused <;> simp [dispatchOnTrigger, stop_blocking_keys]

theorem discard_on_failure_witness :
    ((true : Bool) = false ∨ (false : Bool) = false) ∧
    ((dispatchOnTrigger true false 9
        (RecState.mk 0 true 3 [⟨.KeyW, true, 2⟩] [.KeyW])).state.blockingKeys
        = false ∧
     (dispatchOnTrigger true false 9
        (RecState.mk 0 true 3 [⟨.KeyW, true, 2⟩] [.KeyW])).state.recordedKeys
        = [] ∧
     (dispatchOnTrigger true false 9
        (RecState.mk 0 true 3 [⟨.KeyW, true, 2⟩] [.KeyW])).state.heldKeys
        = [] ∧
     (dispatchOnTrigger true false 9
        (RecState.mk 0 true 3 [⟨.KeyW, true, 2⟩] [.KeyW])).harvested = [] ∧
     (dispatchOnTrigger true false 9
        (RecState.mk 0 true 3 [⟨.KeyW, true, 2⟩] [.KeyW])).replayStarted
        = false) :=
  ⟨Or.inr rfl,
    discard_on_failure (RecState.mk 0 true 3 [⟨.KeyW, true, 2⟩] [.KeyW])
      true false 9 (Or.inr rfl)⟩

/-- C3: Finalize-before-mark ordering: on the injection-success path the
dispatch loop harvests exactly `get_recording` of the state as it was
before `mark_auto_click_sent` runs; and while a session is still unharvested
(blocking still enabled) a retriggered right-press leaves the listener
state — in particular the recording buffer — completely unchanged, so it can
never clear a recording that has not yet been harvested. -/
theorem finalize_before_mark :
    (∀ (st : RecState) (now : Nat),
      (dispatchOnTrigger true true now st).harvested =
        (get_recording now st).1) ∧
    (∀ (st : RecState) (focused : Bool) (now : Nat),
      st.blockingKeys = true →
      (listenerCallback focused now st (.buttonPress .RightB)).state = st) := by
  constructor
  · intro st now; rfl
  · intro st focused now h
    simp only [listenerCallback]
    split
    · simp [start_blocking_and_recording, h]
    · rfl

theorem finalize_before_mark_witness :
    (dispatchOnTrigger true true 30
        (RecState.mk 0 true 3 [⟨.KeyW, true, 2⟩] [.KeyW])).harvested =
      (get_recording 30 (RecState.mk 0 true 3 [⟨.KeyW, true, 2⟩] [.KeyW])).1 ∧
    ((RecState.mk 0 true 3 [⟨.KeyW, true, 2⟩] [.KeyW]).blockingKeys = true ∧
     (listenerCallback true 4 (RecState.mk 0 true 3 [⟨.KeyW, true, 2⟩] [.KeyW])
        (.buttonPress .RightB)).state =
       RecState.mk 0 true 3 [⟨.KeyW, true, 2⟩] [.KeyW]) :=
  ⟨finalize_before_mark.1 (RecState.mk 0 true 3 [⟨.KeyW, true, 2⟩] [.KeyW]) 30,
    rfl,
    finalize_before_mark.2 (RecState.mk 0 true 3 [⟨.KeyW, true, 2⟩] [.KeyW])
      true 4 rfl⟩

/-- C4 (amended): Echo suppression for nonzero marks: whenever the last
synthetic click was marked at a nonzero time `T`, any right-button press or
release observed at a time `t` with `t − T` inside the 100 ms guard window
is treated as echo: the raw event is passed through to the host but starts
no recording session, mutates no session state, and signals no trigger. -/
theorem echo_suppression_nonzero_mark (st : RecState) (T t : Nat)
    (focused : Bool) (hT : st.lastAutoClickMs = T) (hpos : 0 < T)
    (hwin : t - T < MIN_CLICK_INTERVAL_MS) :
    listenerCallback focused t st (.buttonPress .RightB) =
      ⟨st, true, false⟩ ∧
    listenerCallback focused t st (.buttonRelease .RightB) =
      ⟨st, true, false⟩ := by
  have hTne : ¬T = 0 := by omega
  have hig : should_ignore_event t st = true := by
    simp [should_ignore_event, hT, hTne, hwin]
  constructor <;> simp [listenerCallback, hig]

theorem echo_suppression_nonzero_mark_witness :
    (RecState.mk 40 false 0 [] []).lastAutoClickMs = 40 ∧ 0 < 40 ∧
    (90 : Nat) - 40 < MIN_CLICK_INTERVAL_MS ∧
    (listenerCallback true 90 (RecState.mk 40 false 0 [] [])
        (.buttonPress .RightB) = ⟨RecState.mk 40 false 0 [] [], true, false⟩ ∧
     listenerCallback true 90 (RecState.mk 40 false 0 [] [])
        (.buttonRelease .RightB) = ⟨RecState.mk 40 false 0 [] [], true, false⟩) :=
  ⟨rfl, by decide, by decide,
    echo_suppression_nonzero_mark (RecState.mk 40 false 0 [] []) 40 90 true
      rfl (by decide) (by decide)⟩

/-- C4 counterexample: an injection marked at time 0 stores the sentinel
value `LAST_AUTO_CLICK_MS = 0`, so a right-press 50 ms later — inside the
100 ms guard window — is NOT treated as echo: it starts a new recording
session (blocking flips from false to true), refuting the claim as stated
for every mark time `T`. -/
theorem echo_guard_inert_at_time_zero :
    (mark_auto_click_sent 0 initState).lastAutoClickMs = 0 ∧
    (50 : Nat) - 0 < MIN_CLICK_INTERVAL_MS ∧
    (mark_auto_click_sent 0 initState).blockingKeys = false ∧
    (listenerCallback true 50 (mark_auto_click_sent 0 initState)
        (.buttonPress .RightB)).state.blockingKeys = true ∧
    (listenerCallback true 50 (mark_auto_click_sent 0 initState)
        (.buttonPress .RightB)).state ≠ mark_auto_click_sent 0 initState := by
  decide

/-- C9 (amended): the post-release injection delay knob `click_delay_ms`
defaults to 0 ms, not 15 ms: by default no delay separates the trigger from
the synthetic click injection. -/
theorem click_delay_default_zero : Config.default.click_delay_ms = 0 := rfl

/-- C9 counterexample: `Config::default` sets `click_delay_ms` to 0, so the
claimed default of 15 ms is false. -/
theorem click_delay_default_not_fifteen :
    Config.default.click_delay_ms = 0 ∧
    Config.default.click_delay_ms ≠ 15 := by
  decide

/-! ## General lemmas about the harvest fold of `get_recording` -/

/-- Shift presses never appear among the events a `harvestStep` adds, and
the step keeps none that were absent. -/
theorem harvestStep_no_shift_press (B : Nat) (evs : List RecordedKeyEvent)
    (j : RKey)
    (h : ∀ e ∈ evs, ¬(e.key = RKey.ShiftLeft ∧ e.is_press = true)) :
    ∀ e ∈ harvestStep B evs j,
      ¬(e.key = RKey.ShiftLeft ∧ e.is_press = true) := by
  intro e he
  unfold harvestStep at he
  split at he
  · exact h e (List.mem_filter.mp he).1
  · rcases List.mem_append.mp he with h1 | h1
    · exact h e h1
    · rcases List.mem_singleton.mp h1 with rfl
      simp

/-- The harvest fold preserves absence of shift presses. -/
theorem harvestFold_no_shift_press (B : Nat) (held : List RKey) :
    ∀ evs : List RecordedKeyEvent,
    (∀ e ∈ evs, ¬(e.key = RKey.ShiftLeft ∧ e.is_press = true)) →
    ∀ e ∈ held.foldl (harvestStep B) evs,
      ¬(e.key = RKey.ShiftLeft ∧ e.is_press = true) := by
  induction held with
  | nil => intro evs h; exact h
  | cons j rest ih =>
      intro evs h
      exact ih (harvestStep B evs j) (harvestStep_no_shift_press B evs j h)

/-- The step for a held `ShiftLeft` leaves no shift press behind. -/
theorem harvestStep_shift_clears (B : Nat) (evs : List RecordedKeyEvent) :
    ∀ e ∈ harvestStep B evs RKey.ShiftLeft,
      ¬(e.key = RKey.ShiftLeft ∧ e.is_press = true) := by
  intro e he
  unfold harvestStep at he
  rw [if_pos rfl] at he
  have hp := (List.mem_filter.mp he).2
  intro hc
  simp [hc.1, hc.2] at hp

/-- If `ShiftLeft` is among the held keys, the harvest fold's result
contains no shift press. -/
theorem harvestFold_shift_held (B : Nat) (held : List RKey) :
    ∀ evs : List RecordedKeyEvent, RKey.ShiftLeft ∈ held →
    ∀ e ∈ held.foldl (harvestStep B) evs,
      ¬(e.key = RKey.ShiftLeft ∧ e.is_press = true) := by
  induction held with
  | nil => intro evs h; exact absurd h (List.not_mem_nil _)
  | cons j rest ih =>
      intro evs hmem
      by_cases hj : j = RKey.ShiftLeft
      · subst hj
        exact harvestFold_no_shift_press B rest
          (harvestStep B evs RKey.ShiftLeft)
          (harvestStep_shift_clears B evs)
      · have : RKey.ShiftLeft ∈ rest := by
          rcases List.mem_cons.mp hmem with h | h
          · exact absurd h.symm hj
          · exact h
        exact ih (harvestStep B evs j) this

/-- A `harvestStep` never changes the sublist of ShiftLeft releases. -/
theorem harvestStep_shift_releases (B : Nat) (evs : List RecordedKeyEvent)
    (j : RKey) :
    (harvestStep B evs j).filter
        (fun e => e.key == RKey.ShiftLeft && !e.is_press) =
      evs.filter (fun e => e.key == RKey.ShiftLeft && !e.is_press) := by
  by_cases hj : j = RKey.ShiftLeft
  · rw [harvestStep, if_pos hj, List.filter_filter]
    apply List.filter_congr
    intro e _
    cases hk : (e.key == RKey.ShiftLeft) <;> cases hp : e.is_press <;>
      simp [hk, hp]
  · rw [harvestStep, if_neg hj, List.filter_append]
    simp [hj]

/-- The harvest fold never changes the sublist of ShiftLeft releases. -/
theorem harvestFold_shift_releases (B : Nat) (held : List RKey) :
    ∀ evs : List RecordedKeyEvent,
    (held.foldl (harvestStep B) evs).filter
        (fun e => e.key == RKey.ShiftLeft && !e.is_press) =
      evs.filter (fun e => e.key == RKey.ShiftLeft && !e.is_press) := by
  induction held with
  | nil => intro evs; rfl
  | cons j rest ih =>
      intro evs
      rw [List.foldl_cons, ih (harvestStep B evs j),
        harvestStep_shift_releases]

/-- C1 (amended): Finalize-for-replay with ShiftLeft still held removes
every ShiftLeft press entry from the harvested sequence — including the
presses of press/release pairs that completed earlier in the session (a
blanket filter) — while every ShiftLeft release entry recorded during the
session survives unchanged. -/
theorem shift_press_filter_blanket (st : RecState) (now : Nat)
    (h : RKey.ShiftLeft ∈ st.heldKeys) :
    (∀ e ∈ (get_recording now st).1,
      ¬(e.key = RKey.ShiftLeft ∧ e.is_press = true)) ∧
    (get_recording now st).1.filter
        (fun e => e.key == RKey.ShiftLeft && !e.is_press) =
      st.recordedKeys.filter
        (fun e => e.key == RKey.ShiftLeft && !e.is_press) := by
  constructor
  · exact harvestFold_shift_held (now - st.recordingStartMs) st.heldKeys
      st.recordedKeys h
  · exact harvestFold_shift_releases (now - st.recordingStartMs)
      st.heldKeys st.recordedKeys

theorem shift_press_filter_blanket_witness :
    RKey.ShiftLeft ∈ (RecState.mk 0 true 0
        [⟨.ShiftLeft, true, 0⟩, ⟨.ShiftLeft, false, 10⟩,
         ⟨.ShiftLeft, true, 20⟩] [.ShiftLeft]).heldKeys ∧
    ((∀ e ∈ (get_recording 30 (RecState.mk 0 true 0
        [⟨.ShiftLeft, true, 0⟩, ⟨.ShiftLeft, false, 10⟩,
         ⟨.ShiftLeft, true, 20⟩] [.ShiftLeft])).1,
        ¬(e.key = RKey.ShiftLeft ∧ e.is_press = true)) ∧
     (get_recording 30 (RecState.mk 0 true 0
        [⟨.ShiftLeft, true, 0⟩, ⟨.ShiftLeft, false, 10⟩,
         ⟨.ShiftLeft, true, 20⟩] [.ShiftLeft])).1.filter
         (fun e => e.key == RKey.ShiftLeft && !e.is_press) =
       (RecState.mk 0 true 0
        [⟨.ShiftLeft, true, 0⟩, ⟨.ShiftLeft, false, 10⟩,
         ⟨.ShiftLeft, true, 20⟩] [.ShiftLeft]).recordedKeys.filter
         (fun e => e.key == RKey.ShiftLeft && !e.is_press)) :=
  ⟨by decide,
    shift_press_filter_blanket (RecState.mk 0 true 0
        [⟨.ShiftLeft, true, 0⟩, ⟨.ShiftLeft, false, 10⟩,
         ⟨.ShiftLeft, true, 20⟩] [.ShiftLeft]) 30 (by decide)⟩

/-- C1 counterexample: a session in which a ShiftLeft press/release pair
completed (press at 0 ms, release at 10 ms) before a second, still-held
press at 20 ms. The session state is reached through the real grab
callback; finalizing removes the completed pair's press entry, so the pair
does not "remain intact" in the harvested sequence, refuting the claim as
stated. -/
theorem shift_completed_pair_not_intact :
    (listenerCallback true 20 (listenerCallback true 10 (listenerCallback
        true 0 (listenerCallback true 0 initState
          (.buttonPress .RightB)).state
        (.keyPress .ShiftLeft)).state
        (.keyRelease .ShiftLeft)).state
        (.keyPress .ShiftLeft)).state =
      RecState.mk 0 true 0
        [⟨.ShiftLeft, true, 0⟩, ⟨.ShiftLeft, false, 10⟩,
         ⟨.ShiftLeft, true, 20⟩] [.ShiftLeft] ∧
    (⟨.ShiftLeft, true, 0⟩ : RecordedKeyEvent) ∈
      (RecState.mk 0 true 0
        [⟨.ShiftLeft, true, 0⟩, ⟨.ShiftLeft, false, 10⟩,
         ⟨.ShiftLeft, true, 20⟩] [.ShiftLeft]).recordedKeys ∧
    (⟨.ShiftLeft, false, 10⟩ : RecordedKeyEvent) ∈
      (RecState.mk 0 true 0
        [⟨.ShiftLeft, true, 0⟩, ⟨.ShiftLeft, false, 10⟩,
         ⟨.ShiftLeft, true, 20⟩] [.ShiftLeft]).recordedKeys ∧
    RKey.ShiftLeft ∈
      (RecState.mk 0 true 0
        [⟨.ShiftLeft, true, 0⟩, ⟨.ShiftLeft, false, 10⟩,
         ⟨.ShiftLeft, true, 20⟩] [.ShiftLeft]).heldKeys ∧
    (get_recording 30 (RecState.mk 0 true 0
        [⟨.ShiftLeft, true, 0⟩, ⟨.ShiftLeft, false, 10⟩,
         ⟨.ShiftLeft, true, 20⟩] [.ShiftLeft])).1 =
      [⟨.ShiftLeft, false, 10⟩] ∧
    (⟨.ShiftLeft, true, 0⟩ : RecordedKeyEvent) ∉
      (get_recording 30 (RecState.mk 0 true 0
        [⟨.ShiftLeft, true, 0⟩, ⟨.ShiftLeft, false, 10⟩,
         ⟨.ShiftLeft, true, 20⟩] [.ShiftLeft])).1 := by
  decide

/-- Counting helper: filtering by a predicate every `p`-positive element
satisfies does not change the `p`-count. -/
theorem countP_filter_of_imp {α : Type} (l : List α) (p q : α → Bool)
    (h : ∀ a, p a = true → q a = true) :
    (l.filter q).countP p = l.countP p := by
  induction l with
  | nil => rfl
  | cons a tl ih =>
      by_cases hq : q a = true
      · rw [List.filter_cons_of_pos hq, List.countP_cons, List.countP_cons,
          ih]
      · have hp : ¬p a = true := fun hpa => hq (h a hpa)
        rw [List.filter_cons_of_neg hq, List.countP_cons, ih]
        simp [hp]

/-- A `harvestStep` adds no press entries. -/
theorem harvestStep_pressCount (B : Nat) (evs : List RecordedKeyEvent)
    (j k : RKey) (hk : k ≠ RKey.ShiftLeft) :
    pressCount (harvestStep B evs j) k = pressCount evs k := by
  by_cases hj : j = RKey.ShiftLeft
  · rw [harvestStep, if_pos hj]
    apply countP_filter_of_imp
    intro e he
    have hke : e.key = k := by
      cases hkk : (e.key == k) with
      | true => exact beq_iff_eq.mp hkk
      | false => simp [hkk] at he
    simp [hke, hk]
  · rw [harvestStep, if_neg hj, pressCount, List.countP_append]
    simp [pressCount]

/-- A `harvestStep` for a non-shift held key `j` adds exactly one release
entry for `j` and none for other keys. -/
theorem harvestStep_releaseCount (B : Nat) (evs : List RecordedKeyEvent)
    (j k : RKey) (hk : k ≠ RKey.ShiftLeft) :
    releaseCount (harvestStep B evs j) k =
      releaseCount evs k + (if j = k then 1 else 0) := by
  by_cases hj : j = RKey.ShiftLeft
  · have hjk : ¬j = k := fun h => hk (h ▸ hj)
    rw [harvestStep, if_pos hj, if_neg hjk, Nat.add_zero]
    apply countP_filter_of_imp
    intro e he
    have hpr : e.is_press = false := by
      cases hpp : e.is_press with
      | false => rfl
      | true => simp [hpp] at he
    simp [hpr]
  · rw [harvestStep, if_neg hj, releaseCount, List.countP_append]
    by_cases hjk : j = k <;> simp [releaseCount, hjk]

/-- Press counts across the whole harvest fold are unchanged for non-shift
keys. -/
theorem harvestFold_pressCount (B : Nat) (held : List RKey) :
    ∀ evs : List RecordedKeyEvent, ∀ k : RKey, k ≠ RKey.ShiftLeft →
    pressCount (held.foldl (harvestStep B) evs) k = pressCount evs k := by
  induction held with
  | nil => intro evs k _; rfl
  | cons j rest ih =>
      intro evs k hk
      rw [List.foldl_cons, ih (harvestStep B evs j) k hk,
        harvestStep_pressCount B evs j k hk]

/-- Release counts across the whole harvest fold grow by the multiplicity
of the key in the held list, for non-shift keys. -/
theorem harvestFold_releaseCount (B : Nat) (held : List RKey) :
    ∀ evs : List RecordedKeyEvent, ∀ k : RKey, k ≠ RKey.ShiftLeft →
    releaseCount (held.foldl (harvestStep B) evs) k =
      releaseCount evs k + held.count k := by
  induction held with
  | nil => intro evs k _; rfl
  | cons j rest ih =>
      intro evs k hk
      rw [List.foldl_cons, ih (harvestStep B evs j) k hk,
        harvestStep_releaseCount B evs j k hk, List.count_cons]
      by_cases hjk : j = k
      · simp [hjk]; omega
      · have hkj : ¬k = j := fun h => hjk h.symm
        simp [hjk, hkj]

/-- Release events survive any `harvestStep`. -/
theorem harvestStep_mem_release (B : Nat) (evs : List RecordedKeyEvent)
    (j : RKey) (e : RecordedKeyEvent) (he : e ∈ evs)
    (hrel : e.is_press = false) : e ∈ harvestStep B evs j := by
  by_cases hj : j = RKey.ShiftLeft
  · rw [harvestStep, if_pos hj]
    exact List.mem_filter.mpr ⟨he, by simp [hrel]⟩
  · rw [harvestStep, if_neg hj]
    exact List.mem_append_left _ he

/-- Release events survive the whole harvest fold. -/
theorem harvestFold_mem_release (B : Nat) (held : List RKey) :
    ∀ evs : List RecordedKeyEvent, ∀ e ∈ evs, e.is_press = false →
    e ∈ held.foldl (harvestStep B) evs := by
  induction held with
  | nil => intro evs e he _; exact he
  | cons j rest ih =>
      intro evs e he hrel
      exact ih (harvestStep B evs j) e
        (harvestStep_mem_release B evs j e he hrel) hrel

/-- Every non-shift held key receives a synthetic release at `B` in the
harvest fold's output. -/
theorem harvestFold_mem_of_held (B : Nat) (held : List RKey) :
    ∀ evs : List RecordedKeyEvent, ∀ k : RKey, k ≠ RKey.ShiftLeft →
    k ∈ held →
    (⟨k, false, B⟩ : RecordedKeyEvent) ∈ held.foldl (harvestStep B) evs := by
  induction held with
  | nil => intro evs k _ hmem; exact absurd hmem (List.not_mem_nil _)
  | cons j rest ih =>
      intro evs k hk hmem
      rcases List.mem_cons.mp hmem with h | h
      · have hmem2 : (⟨k, false, B⟩ : RecordedKeyEvent) ∈
            harvestStep B evs j := by
          rw [← h, harvestStep, if_neg (h ▸ hk)]
          exact List.mem_append_right _ (List.mem_singleton.mpr rfl)
        exact harvestFold_mem_release B rest (harvestStep B evs j)
          ⟨k, false, B⟩ hmem2 rfl
      · exact ih (harvestStep B evs j) k hk h

/-- C2 (amended): No stuck keys: for every session finalized while a
suppressed (non-shift) key is in the held-key set, the harvested sequence
contains a release entry for that key at offset
`end_offset = now − start_time`; and — provided the key is held exactly once
and the recorded buffer contains exactly one more press than release for it
(the situation produced by strictly alternating physical press/release
input) — the number of press entries for that key in the harvested sequence
equals the number of release entries. -/
theorem no_stuck_keys (st : RecState) (k : RKey) (now : Nat)
    (hk : k ≠ RKey.ShiftLeft) (hmem : k ∈ st.heldKeys) :
    (⟨k, false, now - st.recordingStartMs⟩ : RecordedKeyEvent) ∈
      (get_recording now st).1 ∧
    (st.heldKeys.count k = 1 →
     pressCount st.recordedKeys k = releaseCount st.recordedKeys k + 1 →
     pressCount (get_recording now st).1 k =
       releaseCount (get_recording now st).1 k) := by
  constructor
  · exact harvestFold_mem_of_held (now - st.recordingStartMs) st.heldKeys
      st.recordedKeys k hk hmem
  · intro hcount hbal
    have hp := harvestFold_pressCount (now - st.recordingStartMs)
      st.heldKeys st.recordedKeys k hk
    have hr := harvestFold_releaseCount (now - st.recordingStartMs)
      st.heldKeys st.recordedKeys k hk
    simp only [get_recording] at *
    omega

theorem no_stuck_keys_witness :
    (RKey.KeyW ≠ RKey.ShiftLeft) ∧
    RKey.KeyW ∈ (RecState.mk 0 true 0 [⟨.KeyW, true, 10⟩] [.KeyW]).heldKeys ∧
    (RecState.mk 0 true 0 [⟨.KeyW, true, 10⟩] [.KeyW]).heldKeys.count
      RKey.KeyW = 1 ∧
    pressCount (RecState.mk 0 true 0
        [⟨.KeyW, true, 10⟩] [.KeyW]).recordedKeys RKey.KeyW =
      releaseCount (RecState.mk 0 true 0
        [⟨.KeyW, true, 10⟩] [.KeyW]).recordedKeys RKey.KeyW + 1 ∧
    (⟨.KeyW, false, 30⟩ : RecordedKeyEvent) ∈
      (get_recording 30 (RecState.mk 0 true 0
        [⟨.KeyW, true, 10⟩] [.KeyW])).1 ∧
    pressCount (get_recording 30 (RecState.mk 0 true 0
        [⟨.KeyW, true, 10⟩] [.KeyW])).1 RKey.KeyW =
      releaseCount (get_recording 30 (RecState.mk 0 true 0
        [⟨.KeyW, true, 10⟩] [.KeyW])).1 RKey.KeyW :=
  ⟨by decide, by decide, by decide, by decide,
    (no_stuck_keys (RecState.mk 0 true 0 [⟨.KeyW, true, 10⟩] [.KeyW])
      RKey.KeyW 30 (by decide) (by decide)).1,
    (no_stuck_keys (RecState.mk 0 true 0 [⟨.KeyW, true, 10⟩] [.KeyW])
      RKey.KeyW 30 (by decide) (by decide)).2 (by decide) (by decide)⟩

/-- C2 counterexample: a session (driven through the real grab callback)
in which KeyW's press is recorded twice with no intervening recorded
release — e.g. the release fell outside the focus gate, or arrived as key
auto-repeat. The key is held at finalize time, one synthetic release is
appended at `end_offset = 30`, yet the harvested sequence has two press
entries against a single release entry, refuting the claimed press/release
count equality. -/
theorem stuck_key_counts_unequal_on_double_press :
    (listenerCallback true 20 (listenerCallback true 10 (listenerCallback
        true 0 initState (.buttonPress .RightB)).state
        (.keyPress .KeyW)).state
        (.keyPress .KeyW)).state =
      RecState.mk 0 true 0
        [⟨.KeyW, true, 10⟩, ⟨.KeyW, true, 20⟩] [.KeyW] ∧
    RKey.KeyW ∈ (RecState.mk 0 true 0
        [⟨.KeyW, true, 10⟩, ⟨.KeyW, true, 20⟩] [.KeyW]).heldKeys ∧
    (get_recording 30 (RecState.mk 0 true 0
        [⟨.KeyW, true, 10⟩, ⟨.KeyW, true, 20⟩] [.KeyW])).1 =
      [⟨.KeyW, true, 10⟩, ⟨.KeyW, true, 20⟩, ⟨.KeyW, false, 30⟩] ∧
    pressCount (get_recording 30 (RecState.mk 0 true 0
        [⟨.KeyW, true, 10⟩, ⟨.KeyW, true, 20⟩] [.KeyW])).1 RKey.KeyW = 2 ∧
    releaseCount (get_recording 30 (RecState.mk 0 true 0
        [⟨.KeyW, true, 10⟩, ⟨.KeyW, true, 20⟩] [.KeyW])).1 RKey.KeyW = 1 := by
  decide

/-- A `harvestStep` preserves sortedness of offsets and the bound
`offset_ms ≤ B` (the synthetic release it may append carries offset `B`). -/
theorem harvestStep_sorted (B : Nat) (evs : List RecordedKeyEvent) (j : RKey)
    (hs : List.Sorted (· ≤ ·) (evs.map (·.offset_ms)))
    (hb : ∀ e ∈ evs, e.offset_ms ≤ B) :
    List.Sorted (· ≤ ·) ((harvestStep B evs j).map (·.offset_ms)) ∧
    ∀ e ∈ harvestStep B evs j, e.offset_ms ≤ B := by
  by_cases hj : j = RKey.ShiftLeft
  · rw [harvestStep, if_pos hj]
    constructor
    · exact List.Pairwise.sublist
        (List.Sublist.map _ (List.filter_sublist evs)) hs
    · intro e he
      exact hb e (List.mem_filter.mp he).1
  · rw [harvestStep, if_neg hj]
    constructor
    · rw [List.map_append]
      refine List.pairwise_append.mpr ⟨hs, List.pairwise_singleton _ _, ?_⟩
      intro a ha b hbm
      rcases List.mem_map.mp ha with ⟨e, he, rfl⟩
      rcases List.mem_singleton.mp hbm with rfl
      exact hb e he
    · intro e he
      rcases List.mem_append.mp he with h | h
      · exact hb e h
      · rcases List.mem_singleton.mp h with rfl
        exact Nat.le_refl B

/-- The whole harvest fold preserves sortedness of offsets when every
buffered offset is at most `B = end_offset`. -/
theorem harvestFold_sorted (B : Nat) (held : List RKey) :
    ∀ evs : List RecordedKeyEvent,
    List.Sorted (· ≤ ·) (evs.map (·.offset_ms)) →
    (∀ e ∈ evs, e.offset_ms ≤ B) →
    List.Sorted (· ≤ ·)
      ((held.foldl (harvestStep B) evs).map (·.offset_ms)) := by
  induction held with
  | nil => intro evs hs _; exact hs
  | cons j rest ih =>
      intro evs hs hb
      obtain ⟨hs2, hb2⟩ := harvestStep_sorted B evs j hs hb
      exact ih (harvestStep B evs j) hs2 hb2

/-- `recordAll` leaves the recording start time unchanged. -/
theorem recordAll_start (ops : List (Nat × RKey × Bool)) :
    ∀ st : RecState,
    (recordAll ops st).recordingStartMs = st.recordingStartMs := by
  induction ops with
  | nil => intro st; rfl
  | cons o rest ih =>
      intro st
      rw [recordAll, List.foldl_cons]
      exact ih (record_key_event o.1 o.2.1 o.2.2 st)

/-- `recordAll` appends to the buffer, in order, one entry per recording
call, each with offset `now − recording_start`. -/
theorem recordAll_buffer (ops : List (Nat × RKey × Bool)) :
    ∀ st : RecState,
    (recordAll ops st).recordedKeys =
      st.recordedKeys ++
        ops.map (fun o => ⟨o.2.1, o.2.2, o.1 - st.recordingStartMs⟩) := by
  induction ops with
  | nil => intro st; simp [recordAll]
  | cons o rest ih =>
      intro st
      rw [recordAll, List.foldl_cons]
      have := ih (record_key_event o.1 o.2.1 o.2.2 st)
      rw [recordAll] at this
      rw [this]
      simp [record_key_event, List.append_assoc]

/-- C10: Harvested sequences are time-ordered: for any session started at
`t0` in a non-blocking state, any chronologically ordered run of recording
calls, and any finalize time `tf` not earlier than the recorded times, the
sequence returned by `get_recording` has nondecreasing `offset_ms` values —
so the replay scheduler's sortedness precondition is always satisfied. -/
theorem harvest_sorted (st : RecState) (t0 tf : Nat)
    (ops : List (Nat × RKey × Bool))
    (hblock : st.blockingKeys = false)
    (hsorted : List.Sorted (· ≤ ·) (ops.map Prod.fst ++ [tf])) :
    List.Sorted (· ≤ ·)
      (((get_recording tf (recordAll ops
          (start_blocking_and_recording t0 st))).1).map (·.offset_ms)) := by
  have h0 : (start_blocking_and_recording t0 st).recordedKeys = [] ∧
      (start_blocking_and_recording t0 st).recordingStartMs = t0 := by
    rw [start_blocking_and_recording, if_neg (by simp [hblock])]
    exact ⟨rfl, rfl⟩
  obtain ⟨h0b, h0s⟩ := h0
  have hbuf : (recordAll ops (start_blocking_and_recording t0 st)).recordedKeys
      = ops.map (fun o => ⟨o.2.1, o.2.2, o.1 - t0⟩) := by
    rw [recordAll_buffer, h0b, h0s, List.nil_append]
  have hstart :
      (recordAll ops (start_blocking_and_recording t0 st)).recordingStartMs
      = t0 := by
    rw [recordAll_start, h0s]
  have hps := List.pairwise_append.mp hsorted
  have hops : List.Sorted (· ≤ ·) (ops.map Prod.fst) := hps.1
  have hbnd : ∀ x ∈ ops.map Prod.fst, x ≤ tf := fun x hx =>
    hps.2.2 x hx tf (List.mem_singleton.mpr rfl)
  have hmap :
      ((recordAll ops (start_blocking_and_recording t0 st)).recordedKeys).map
        (·.offset_ms) = (ops.map Prod.fst).map (· - t0) := by
    rw [hbuf]
    simp [List.map_map, Function.comp]
  have hsortbuf : List.Sorted (· ≤ ·)
      (((recordAll ops (start_blocking_and_recording t0 st)).recordedKeys).map
        (·.offset_ms)) := by
    rw [hmap]
    exact List.Pairwise.map _ (fun a b h => Nat.sub_le_sub_right h t0) hops
  have hbndbuf : ∀ e ∈
      (recordAll ops (start_blocking_and_recording t0 st)).recordedKeys,
      e.offset_ms ≤ tf - t0 := by
    rw [hbuf]
    intro e he
    rcases List.mem_map.mp he with ⟨o, ho, rfl⟩
    exact Nat.sub_le_sub_right (hbnd o.1 (List.mem_map_of_mem _ ho)) t0
  show List.Sorted (· ≤ ·)
    (((recordAll ops (start_blocking_and_recording t0 st)).heldKeys.foldl
        (harvestStep (tf -
          (recordAll ops
            (start_blocking_and_recording t0 st)).recordingStartMs))
        (recordAll ops
          (start_blocking_and_recording t0 st)).recordedKeys).map
      (·.offset_ms))
  rw [hstart]
  exact harvestFold_sorted (tf - t0) _ _ hsortbuf hbndbuf

theorem harvest_sorted_witness :
    initState.blockingKeys = false ∧
    List.Sorted (· ≤ ·)
      (([((10 : Nat), RKey.KeyW, true), ((12 : Nat), RKey.ShiftLeft, true),
         ((20 : Nat), RKey.KeyA, true)].map Prod.fst) ++ [30]) ∧
    List.Sorted (· ≤ ·)
      (((get_recording 30 (recordAll
          [((10 : Nat), RKey.KeyW, true), ((12 : Nat), RKey.ShiftLeft, true),
           ((20 : Nat), RKey.KeyA, true)]
          (start_blocking_and_recording 5 initState))).1).map
        (·.offset_ms)) :=
  ⟨rfl, by decide,
    harvest_sorted initState 5 30
      [((10 : Nat), RKey.KeyW, true), ((12 : Nat), RKey.ShiftLeft, true),
       ((20 : Nat), RKey.KeyA, true)] rfl (by decide)⟩
